import Mathlib

/-!
Verification of the request-handling pipeline of the web3-provider-proxy
Cloudflare worker.  The definitions below are a shallow embedding of the
worker source: JavaScript values flowing through the POST handler are
modelled by the mutual inductive `JsVal`, the platform SHA-256 digest
(crypto.subtle.digest) is implemented concretely per FIPS 180-4, and the
handlers become explicit state-passing functions over an association-list
cache, parameterised by a trace of network-attempt outcomes.
-/

/-! ## JavaScript / JSON values

A JavaScript value as seen by the worker after JSON parsing, plus the
distinguished `undefined` value (the result of reading an absent property).
Objects are ordered field lists, as in JavaScript.
-/

mutual

inductive JsVal where
  | undefined : JsVal
  | null : JsVal
  | bool : Bool → JsVal
  | num : Int → JsVal
  | str : String → JsVal
  | arr : JsList → JsVal
  | obj : JsFields → JsVal

inductive JsList where
  | nil : JsList
  | cons : JsVal → JsList → JsList

inductive JsFields where
  | nil : JsFields
  | cons : String → JsVal → JsFields → JsFields

end

/-- First-match lookup of a field in an object field list (JavaScript
property access on own properties). -/
def lookupFieldJ : JsFields → String → Option JsVal
  | .nil, _ => none
  | .cons k v tl, key => if k = key then some v else lookupFieldJ tl key

/-- JavaScript property read `o[key]`: `undefined` when the property is
absent or the value is not an object. -/
def jsGet (v : JsVal) (key : String) : JsVal :=
  match v with
  | .obj fs => (lookupFieldJ fs key).getD .undefined
  | _ => .undefined

/-- The own enumerable fields contributed by spreading a value into an
object literal: objects contribute their fields, primitives contribute
nothing. -/
def fieldsOf : JsVal → JsFields
  | .obj fs => fs
  | _ => .nil

def appendFields : JsFields → JsFields → JsFields
  | .nil, b => b
  | .cons k v tl, b => .cons k v (appendFields tl b)

/-- The fields of `a` with values overridden by `b` where `b` has the same
key (first half of the object-spread `\x7b ...a, ...b \x7d`). -/
def overrideFields : JsFields → JsFields → JsFields
  | .nil, _ => .nil
  | .cons k v tl, b =>
      .cons k (match lookupFieldJ b k with | some w => w | none => v) (overrideFields tl b)

/-- The fields of `b` whose keys do not occur in `a` (second half of the
object spread). -/
def restFields : JsFields → JsFields → JsFields
  | _, .nil => .nil
  | a, .cons k v tl =>
      match lookupFieldJ a k with
      | some _ => restFields a tl
      | none => .cons k v (restFields a tl)

/-- JavaScript object spread `\x7b ...a, ...b \x7d`: keys of `a` in order
with values taken from `b` on collision, followed by the keys of `b` not
in `a`. -/
def spreadMerge (a b : JsFields) : JsFields :=
  appendFields (overrideFields a b) (restFields a b)

/-! ## JSON serialization (JSON.stringify)

`stringifyCore` returns `none` exactly when JSON.stringify would return
the JavaScript value `undefined` (serializing `undefined` itself).  Inside
arrays `undefined` serializes as `null`; object fields with `undefined`
values are dropped.
-/

/-- One JSON string-escaped character. -/
def escChar (c : Char) : List Char :=
  if c = '"' then ['\\', '"']
  else if c = '\\' then ['\\', '\\']
  else if c = '\n' then ['\\', 'n']
  else if c = '\r' then ['\\', 'r']
  else if c = '\t' then ['\\', 't']
  else if c.toNat < 32 then
    ['\\', 'u', '0', '0', Nat.digitChar (c.toNat / 16), Nat.digitChar (c.toNat % 16)]
  else [c]

/-- JSON string quoting. -/
def jsonQuote (s : String) : String :=
  String.mk ('"' :: (s.data.map escChar).flatten ++ ['"'])

/-- Join with commas, as the implicit separator of JSON.stringify output. -/
def joinComma : List String → String
  | [] => ""
  | [x] => x
  | x :: rest => x ++ "," ++ joinComma rest

mutual

def stringifyCore : JsVal → Option String
  | .undefined => none
  | .null => some "null"
  | .bool true => some "true"
  | .bool false => some "false"
  | .num n => some (toString n)
  | .str s => some (jsonQuote s)
  | .arr xs => some ("[" ++ joinComma (stringifyList xs) ++ "]")
  | .obj fs => some ("\x7b" ++ joinComma (stringifyFields fs) ++ "\x7d")

def stringifyList : JsList → List String
  | .nil => []
  | .cons v tl => ((stringifyCore v).getD "null") :: stringifyList tl

def stringifyFields : JsFields → List String
  | .nil => []
  | .cons k v tl =>
      match stringifyCore v with
      | none => stringifyFields tl
      | some sv => (jsonQuote k ++ ":" ++ sv) :: stringifyFields tl

end

/-! The JSON value denoted by the JSON.stringify output of a value: object
fields with `undefined` values disappear, `undefined` array elements
become `null`.  Serializing and reparsing a response body in
`formatResponse` is modelled by this round trip. -/

mutual

def jsonRound : JsVal → JsVal
  | .undefined => .null
  | .null => .null
  | .bool b => .bool b
  | .num n => .num n
  | .str s => .str s
  | .arr xs => .arr (roundList xs)
  | .obj fs => .obj (roundFields fs)

def roundList : JsList → JsList
  | .nil => .nil
  | .cons v tl => .cons (jsonRound v) (roundList tl)

def roundFields : JsFields → JsFields
  | .nil => .nil
  | .cons k v tl =>
      match v with
      | .undefined => roundFields tl
      | _ => .cons k (jsonRound v) (roundFields tl)

end

/-! ## UTF-8 encoding (TextEncoder) -/

/-- UTF-8 encoding of one character as bytes. -/
def utf8EncodeChar (c : Char) : List Nat :=
  let n := c.toNat
  if n < 0x80 then [n]
  else if n < 0x800 then
    [0xC0 ||| (n >>> 6), 0x80 ||| (n &&& 0x3F)]
  else if n < 0x10000 then
    [0xE0 ||| (n >>> 12), 0x80 ||| ((n >>> 6) &&& 0x3F), 0x80 ||| (n &&& 0x3F)]
  else
    [0xF0 ||| (n >>> 18), 0x80 ||| ((n >>> 12) &&& 0x3F),
     0x80 ||| ((n >>> 6) &&& 0x3F), 0x80 ||| (n &&& 0x3F)]

def utf8Encode (s : String) : List Nat :=
  (s.data.map utf8EncodeChar).flatten

/-- TextEncoder().encode with its WebIDL signature: the argument is an
optional USVString defaulting to the empty string, so passing the
JavaScript value `undefined` (modelled as `none`) encodes `""`. -/
def textEncoderEncode : Option String → List Nat
  | none => []
  | some s => utf8Encode s

/-! ## SHA-256 (crypto.subtle.digest("SHA-256", _), per FIPS 180-4)

32-bit machine words are `Nat` reduced mod `2 ^ 32` at each operation.
-/

def rotr32 (x n : Nat) : Nat :=
  ((x >>> n) ||| (x <<< (32 - n))) % 4294967296

def shaCh (x y z : Nat) : Nat := (x &&& y) ^^^ ((4294967295 - x % 4294967296) &&& z)

def shaMaj (x y z : Nat) : Nat := (x &&& y) ^^^ (x &&& z) ^^^ (y &&& z)

def bigSigma0 (x : Nat) : Nat := rotr32 x 2 ^^^ rotr32 x 13 ^^^ rotr32 x 22

def bigSigma1 (x : Nat) : Nat := rotr32 x 6 ^^^ rotr32 x 11 ^^^ rotr32 x 25

def smallSigma0 (x : Nat) : Nat := rotr32 x 7 ^^^ rotr32 x 18 ^^^ (x >>> 3)

def smallSigma1 (x : Nat) : Nat := rotr32 x 17 ^^^ rotr32 x 19 ^^^ (x >>> 10)

def shaK : List Nat :=
  [1116352408, 1899447441, 3049323471, 3921009573, 961987163,
   1508970993, 2453635748, 2870763221, 3624381080, 310598401,
   607225278, 1426881987, 1925078388, 2162078206, 2614888103,
   3248222580, 3835390401, 4022224774, 264347078, 604807628,
   770255983, 1249150122, 1555081692, 1996064986, 2554220882,
   2821834349, 2952996808, 3210313671, 3336571891, 3584528711,
   113926993, 338241895, 666307205, 773529912, 1294757372,
   1396182291, 1695183700, 1986661051, 2177026350, 2456956037,
   2730485921, 2820302411, 3259730800, 3345764771, 3516065817,
   3600352804, 4094571909, 275423344, 430227734, 506948616,
   659060556, 883997877, 958139571, 1322822218, 1537002063,
   1747873779, 1955562222, 2024104815, 2227730452, 2361852424,
   2428436474, 2756734187, 3204031479, 3329325298]

structure Sha256State where
  a : Nat
  b : Nat
  c : Nat
  d : Nat
  e : Nat
  f : Nat
  g : Nat
  h : Nat

def shaInit : Sha256State :=
  ⟨1779033703, 3144134277, 1013904242, 2773480762, 1359893119, 2600822924, 528734635, 1541459225⟩

/-- One compression round. -/
def shaStep (st : Sha256State) (k w : Nat) : Sha256State :=
  let t1 := (st.h + bigSigma1 st.e + shaCh st.e st.f st.g + k + w) % 4294967296
  let t2 := (bigSigma0 st.a + shaMaj st.a st.b st.c) % 4294967296
  ⟨(t1 + t2) % 4294967296, st.a, st.b, st.c, (st.d + t1) % 4294967296, st.e, st.f, st.g⟩

/-- Extend a 16-word block by `k` further message-schedule words. -/
def extendSchedule : Nat → List Nat → List Nat
  | 0, ws => ws
  | k + 1, ws =>
      let t := ws.length
      let w := (smallSigma1 (ws.getD (t - 2) 0) + ws.getD (t - 7) 0 +
                smallSigma0 (ws.getD (t - 15) 0) + ws.getD (t - 16) 0) % 4294967296
      extendSchedule k (ws ++ [w])

def addWords (x y : Nat) : Nat := (x + y) % 4294967296

def compressBlock (st : Sha256State) (block : List Nat) : Sha256State :=
  let ws := extendSchedule 48 block
  let t := (List.zip shaK ws).foldl (fun s kw => shaStep s kw.1 kw.2) st
  ⟨addWords st.a t.a, addWords st.b t.b, addWords st.c t.c, addWords st.d t.d,
   addWords st.e t.e, addWords st.f t.f, addWords st.g t.g, addWords st.h t.h⟩

/-- Big-endian bytes of a 64-bit quantity. -/
def toBytes64 (n : Nat) : List Nat :=
  [(n >>> 56) % 256, (n >>> 48) % 256, (n >>> 40) % 256, (n >>> 32) % 256,
   (n >>> 24) % 256, (n >>> 16) % 256, (n >>> 8) % 256, n % 256]

/-- Big-endian bytes of a 32-bit word. -/
def toBytesBE (w : Nat) : List Nat :=
  [(w >>> 24) % 256, (w >>> 16) % 256, (w >>> 8) % 256, w % 256]

/-- SHA-256 padding: append 0x80, zero bytes to 56 mod 64, then the
64-bit big-endian bit length. -/
def padMessage (msg : List Nat) : List Nat :=
  let len := msg.length
  let padZeros := (119 - len % 64) % 64
  msg ++ [0x80] ++ List.replicate padZeros 0 ++ toBytes64 (8 * len)

/-- Group bytes into big-endian 32-bit words. -/
def bytesToWords : List Nat → List Nat
  | b0 :: b1 :: b2 :: b3 :: rest =>
      ((((b0 <<< 8) ||| b1) <<< 8 ||| b2) <<< 8 ||| b3) :: bytesToWords rest
  | _ => []

/-- Group words into 16-word blocks. -/
def wordBlocks : List Nat → List (List Nat)
  | w0 :: w1 :: w2 :: w3 :: w4 :: w5 :: w6 :: w7 ::
    w8 :: w9 :: w10 :: w11 :: w12 :: w13 :: w14 :: w15 :: rest =>
      [w0, w1, w2, w3, w4, w5, w6, w7, w8, w9, w10, w11, w12, w13, w14, w15] :: wordBlocks rest
  | _ => []

/-- The SHA-256 digest of a byte sequence, as 32 bytes. -/
def sha256Bytes (msg : List Nat) : List Nat :=
  let final := (wordBlocks (bytesToWords (padMessage msg))).foldl compressBlock shaInit
  toBytesBE final.a ++ toBytesBE final.b ++ toBytesBE final.c ++ toBytesBE final.d ++
  toBytesBE final.e ++ toBytesBE final.f ++ toBytesBE final.g ++ toBytesBE final.h

/-! ## Hex encoding of the digest (worker function sha256)

The source converts each byte with `("00" + b.toString(16)).slice(-2)`
and joins the results.
-/

/-- The source expression `("00" + b.toString(16)).slice(-2)`: prepend two zeros to the base-16
rendering and keep the last two characters. -/
def hexByte (b : Nat) : String :=
  let l := '0' :: '0' :: Nat.toDigits 16 b
  String.mk (l.drop (l.length - 2))

/-- The worker function sha256: UTF-8 encode the message, digest it, and
hex-encode the digest bytes.  The argument is an `Option String` because
`handlePost` passes it the result of JSON.stringify, which is the
JavaScript value `undefined` when the body has no `params` field; the
TextEncoder inside then encodes the empty string (WebIDL default). -/
def sha256 (message : Option String) : String :=
  let msgBuffer := textEncoderEncode message
  let hashArray := sha256Bytes msgBuffer
  String.join (hashArray.map hexByte)

set_option maxRecDepth 100000

/-! ## HTTP model: headers, responses, requests, the edge cache -/

/-- Headers.set: remove any existing header of that name, then append the
new value. -/
def headersSet (hs : List (String × String)) (nm v : String) : List (String × String) :=
  hs.filter (fun kv => kv.1 != nm) ++ [(nm, v)]

/-- Headers.get: first header of that name, if any. -/
def headersGet (hs : List (String × String)) (nm : String) : Option String :=
  (hs.find? (fun kv => kv.1 == nm)).map (fun kv => kv.2)

/-- A platform Response: the body is kept as the JSON value it denotes
(every body in this pipeline is JSON); `ok` and `status` are the fields
the worker reads. -/
structure Response where
  ok : Bool
  status : Nat
  headers : List (String × String)
  body : JsVal

/-- An inbound request: dispatch method, URL path, headers, and the JSON
reading of the body (`none` when the body is not valid JSON, so that
request.clone().json() rejects). -/
structure RequestModel where
  method : String
  path : String
  headers : List (String × String)
  bodyJson : Option JsVal

/-- The edge cache (caches.default): responses keyed by request URL, most
recent write first (cache.put overwrites by shadowing). -/
abbrev Cache := List (String × Response)

def cacheLookup (cache : Cache) (key : String) : Option Response :=
  (cache.find? (fun kv => kv.1 == key)).map (fun kv => kv.2)

def cacheStore (cache : Cache) (key : String) (r : Response) : Cache :=
  (key, r) :: cache

/-- The cache operations a handler performs, in order. -/
inductive CacheOp where
  | lookup : String → CacheOp
  | store : String → CacheOp
deriving DecidableEq

/-- An upstream endpoint from the PROVIDERS pool. -/
structure Provider where
  hostname : String
  pathname : String

/-- The resolved worker configuration (the ambient globals of the source,
with their defaults). -/
structure Config where
  EDGE_CACHE_TTL : Nat := 60
  BROWSER_CACHE_TTL : Nat := 0
  PROVIDERS : List Provider := []
  PROVIDER_TIMEOUT : Nat := 5000

/-- The outcome the network holds in store for one round of the failover
loop: the Math.random() draw made at the start of the round, the time in
milliseconds until the fetch to the chosen provider settles, and how it
settles (a response, or a network rejection). -/
structure Attempt where
  rand : Rat
  fetchTime : Nat
  result : Except String Response

/-- What the worker passed as the `event` argument: its `.request`
property (undefined, modelled `none`, when a Request was passed instead
of a FetchEvent) and whether it has a callable `.waitUntil`. -/
structure FetchEventArg where
  request : Option RequestModel
  hasWaitUntil : Bool

/-- Math.floor(Math.random() * PROVIDERS.length) for a concrete random
draw `r`. -/
def pickIndex (r : Rat) (n : Nat) : Nat :=
  (Int.floor (r * (n : Rat))).toNat

/-- fetchWithTimeout races the fetch against a timer of `timeout`
milliseconds: the fetch outcome wins exactly when it settles strictly
before the timer fires; otherwise the race rejects with a Timeout
error. -/
def fetchWithTimeout (a : Attempt) (timeout : Nat) : Except String Response :=
  if a.fetchTime < timeout then a.result else .error "Timeout"

/-- The failover loop of the current worker.  Each round draws a fresh
random provider index, fetches `request.clone()` against it under the
PROVIDER_TIMEOUT race, and returns the response when it is ok; on
timeout, network failure, or a non-ok status the failure is logged and
the loop recurses on the remaining trace.  The returned list records,
per fetch actually attempted, the chosen provider index and the request
passed to fetch (the clone of the original; `clone` of a pure request
value is the value itself).  When the request argument is the JavaScript
value undefined (`none`, which happens when a Request was passed as the
event), `request.clone()` throws inside the try block, the catch
swallows it and recurses: no fetch ever happens and no trace ever
produces a response. -/
def tryProvider (cfg : Config) : List Attempt → Option RequestModel →
    Option (Response × List (Nat × RequestModel))
  | [], _ => none
  | _ :: rest, none => tryProvider cfg rest none
  | a :: rest, some request =>
      let provider := pickIndex a.rand cfg.PROVIDERS.length
      let fetchRec := (provider, request)
      match fetchWithTimeout a cfg.PROVIDER_TIMEOUT with
      | .ok response =>
          if response.ok then some (response, [fetchRec])
          else
            match tryProvider cfg rest (some request) with
            | none => none
            | some (r, rs) => some (r, fetchRec :: rs)
      | .error _ =>
          match tryProvider cfg rest (some request) with
          | none => none
          | some (r, rs) => some (r, fetchRec :: rs)

/-- getOriginResponse of the current worker.  With no cacheKey the origin
response is returned as is.  With a cacheKey, the stored response is
rebuilt as new Response(response.body, \x7b ...response, headers \x7d):
spreading a platform Response copies no own enumerable properties, so
the ResponseInit the constructor sees is just the headers object — a
fresh 200/ok response carrying the origin body and the single
edge-cache Cache-Control header.  The cache.put argument is evaluated
before event.waitUntil is invoked; when the event value has no waitUntil
(a Request was passed) the call throws a TypeError.  In the source flows
this branch is unreachable: only handlePost reaches a store, and it
passes the real FetchEvent. -/
def getOriginResponse (cfg : Config) (attempts : List Attempt) (event : FetchEventArg)
    (cacheKey : Option String) (cache : Cache) : Option (Except String (Response × Cache)) :=
  match tryProvider cfg attempts event.request with
  | none => none
  | some (response, _) =>
      match cacheKey with
      | none => some (.ok (response, cache))
      | some key =>
          let headers := [("Cache-Control", "public, max-age=" ++ toString cfg.EDGE_CACHE_TTL)]
          let response2 : Response := { ok := true, status := 200, headers := headers, body := response.body }
          if event.hasWaitUntil then
            some (.ok (response2, cacheStore cache key response2))
          else
            some (.error "TypeError: event.waitUntil is not a function")

/-- formatResponse.  With an extra-fields object the response body is
parsed as JSON, the extra fields are spread on top (extra wins on
collision), and the result is re-serialized — the body of the new
Response is therefore the JSON round trip of the merged object, which
drops fields whose value is undefined.  new Response(fullBody, response)
copies status and headers from the old response (ResponseInit reads
properties through the prototype).  Afterwards Cache-Control is
overwritten with the browser TTL and the three CORS headers are set. -/
def formatResponse (cfg : Config) (response : Response) (body : Option JsFields) : Response :=
  let formattedResponse :=
    match body with
    | some extra =>
        let originalBody := response.body
        let fullBody := JsVal.obj (roundFields (spreadMerge (fieldsOf originalBody) extra))
        { response with body := fullBody }
    | none => response
  { formattedResponse with
    headers :=
      headersSet (headersSet (headersSet (headersSet formattedResponse.headers
        "Cache-Control" ("max-age=" ++ toString cfg.BROWSER_CACHE_TTL))
        "Access-Control-Allow-Method" "*")
        "Access-Control-Allow-Origin" "*")
        "Access-Control-Allow-Headers" "*" }

/-- Strict equality of a JavaScript value with a string literal
(`method === "eth_blockNumber"`). -/
def jsEqStr (v : JsVal) (s : String) : Bool :=
  match v with
  | .str t => t == s
  | _ => false

/-- Whether destructuring the value throws: only null and undefined
cannot be destructured in JavaScript. -/
def jsIsNullish (v : JsVal) : Bool :=
  match v with
  | .null => true
  | .undefined => true
  | _ => false

/-- The cache key handlePost derives for a POST body: a GET request whose
path is "/posts", then the original path, then the hex SHA-256 digest of
JSON.stringify(body.params), with the original request headers.  Note
the source hashes only body.params: the `cacheable` object built from
method and jsonrpc on the line above is never used. -/
def postCacheKey (request : RequestModel) (body : JsVal) : RequestModel :=
  let cacheableBody := stringifyCore (jsGet body "params")
  let hash := sha256 cacheableBody
  { method := "GET"
    path := "/posts" ++ request.path ++ hash
    headers := request.headers
    bodyJson := none }

/-- handleGet of the current worker.  The source calls
getOriginResponse(url, request, request): the Request itself is passed
as the event argument, so inside getOriginResponse the expression
event.request is the JavaScript value undefined and event.waitUntil does
not exist. -/
def handleGet (cfg : Config) (attempts : List Attempt) (request : RequestModel) (cache : Cache) :
    Option (Except String (Response × Cache)) :=
  match cacheLookup cache request.path with
  | some response => some (.ok (formatResponse cfg response none, cache))
  | none =>
      match getOriginResponse cfg attempts ⟨none, false⟩ (some request.path) cache with
      | none => none
      | some (.error e) => some (.error e)
      | some (.ok (response, cache2)) => some (.ok (formatResponse cfg response none, cache2))

/-- handlePost of the current worker, returning the formatted response,
the new cache state, and the cache operations performed.  A body that is
not valid JSON makes request.clone().json() reject, and nothing catches
the rejection; destructuring a null body throws likewise.  Bodies whose
method is eth_blockNumber or eth_estimateGas bypass the cache entirely;
all other bodies are looked up under the derived key and, on a miss,
fetched and stored under it. -/
def handlePost (cfg : Config) (attempts : List Attempt) (request : RequestModel) (cache : Cache) :
    Option (Except String (Response × Cache × List CacheOp)) :=
  match request.bodyJson with
  | none => some (.error "SyntaxError: unexpected token in JSON")
  | some body =>
      if jsIsNullish body then some (.error "TypeError: cannot destructure the body")
      else
          let method := jsGet body "method"
          let id := jsGet body "id"
          let bypassCache := jsEqStr method "eth_blockNumber" || jsEqStr method "eth_estimateGas"
          if bypassCache then
            match getOriginResponse cfg attempts ⟨some request, true⟩ none cache with
            | none => none
            | some (.error e) => some (.error e)
            | some (.ok (response, cache2)) =>
                some (.ok (formatResponse cfg response (some (.cons "id" id .nil)), cache2, []))
          else
            let cacheKey := postCacheKey request body
            match cacheLookup cache cacheKey.path with
            | some response =>
                some (.ok (formatResponse cfg response (some (.cons "id" id .nil)), cache,
                  [CacheOp.lookup cacheKey.path]))
            | none =>
                match getOriginResponse cfg attempts ⟨some request, true⟩ (some cacheKey.path) cache with
                | none => none
                | some (.error e) => some (.error e)
                | some (.ok (response, cache2)) =>
                    some (.ok (formatResponse cfg response (some (.cons "id" id .nil)), cache2,
                      [CacheOp.lookup cacheKey.path, CacheOp.store cacheKey.path]))

/-! ## The legacy worker variant (src/index.js)

Its tryProvider has no timeout race and accepts any fetch-resolved
response, ok or not; its getOriginResponse has no cacheKey guard and
always stores.
-/

namespace Legacy

/-- Legacy failover loop: fetch(url, request) with no timeout and no ok
check; only a network rejection triggers a retry.  fetch accepts an
undefined init, so an undefined request is not an error here. -/
def tryProvider (cfg : Config) : List Attempt → Option RequestModel →
    Option (Response × List (Nat × Option RequestModel))
  | [], _ => none
  | a :: rest, request =>
      let provider := pickIndex a.rand cfg.PROVIDERS.length
      let fetchRec := (provider, request)
      match a.result with
      | .ok response => some (response, [fetchRec])
      | .error _ =>
          match tryProvider cfg rest request with
          | none => none
          | some (r, rs) => some (r, fetchRec :: rs)

/-- Legacy getOriginResponse: stores every response it obtains, with the
same rebuilt Response as the current worker (edge Cache-Control header,
origin body). -/
def getOriginResponse (cfg : Config) (attempts : List Attempt) (event : FetchEventArg)
    (cacheKey : String) (cache : Cache) : Option (Except String (Response × Cache)) :=
  match tryProvider cfg attempts event.request with
  | none => none
  | some (response, _) =>
      let headers := [("Cache-Control", "public, max-age=" ++ toString cfg.EDGE_CACHE_TTL)]
      let response2 : Response := { ok := true, status := 200, headers := headers, body := response.body }
      if event.hasWaitUntil then
        some (.ok (response2, cacheStore cache cacheKey response2))
      else
        some (.error "TypeError: event.waitUntil is not a function")

end Legacy

/-! ## Derived predicates and concrete fixtures -/

/-- The value under which a field survives serialization followed by
reparsing: absent for `undefined`, the JSON round trip otherwise. -/
def roundLookup (v : JsVal) : Option JsVal :=
  match v with
  | .undefined => none
  | _ => some (jsonRound v)

/-- Whether one round of the failover loop succeeds: the race must settle
with a response before the timeout and the response must be ok. -/
def attemptSucceeds (cfg : Config) (a : Attempt) : Bool :=
  match fetchWithTimeout a cfg.PROVIDER_TIMEOUT with
  | .ok r => r.ok
  | .error _ => false

/- Concrete fixtures used by the closed witnesses and counterexamples. -/

def exProvider : Provider := { hostname := "provider0.example", pathname := "/" }

def exCfg : Config := { PROVIDERS := [exProvider] }

def exOkBody : JsVal := .obj (.cons "id" (.num 99) (.cons "result" (.str "0x1") .nil))

def exOkResponse : Response := { ok := true, status := 200, headers := [], body := exOkBody }

def exAttempt : Attempt := { rand := 0, fetchTime := 0, result := Except.ok exOkResponse }

def exFailBody : JsVal := .obj (.cons "error" (.str "boom") .nil)

def exFailResponse : Response := { ok := false, status := 500, headers := [], body := exFailBody }

def exFailAttempt : Attempt := { rand := 0, fetchTime := 0, result := Except.ok exFailResponse }

def exReqGet : RequestModel := { method := "GET", path := "/v1/foo", headers := [], bodyJson := none }

def exBodyBlockNumber : JsVal := .obj (.cons "method" (.str "eth_blockNumber") .nil)

def exReqBypass : RequestModel :=
  { method := "POST", path := "/v1", headers := [], bodyJson := some exBodyBlockNumber }

def exBodyBypassId : JsVal :=
  .obj (.cons "id" (.str "abc") (.cons "method" (.str "eth_blockNumber") .nil))

def exReqBypassId : RequestModel :=
  { method := "POST", path := "/v1", headers := [], bodyJson := some exBodyBypassId }

def exBodyCall : JsVal :=
  .obj (.cons "method" (.str "eth_call")
    (.cons "jsonrpc" (.str "2.0") (.cons "params" (.arr .nil) .nil)))

def exBodyBalance : JsVal :=
  .obj (.cons "method" (.str "eth_getBalance")
    (.cons "jsonrpc" (.str "2.0") (.cons "params" (.arr .nil) .nil)))

def exReqCall : RequestModel :=
  { method := "POST", path := "/v1", headers := [], bodyJson := some exBodyCall }

def exReqEmptyBody : RequestModel :=
  { method := "POST", path := "/v1", headers := [], bodyJson := some (.obj .nil) }

def exReqBadJson : RequestModel :=
  { method := "POST", path := "/v1", headers := [], bodyJson := none }

def exReqNullBody : RequestModel :=
  { method := "POST", path := "/v1", headers := [], bodyJson := some JsVal.null }

/-- The response the current worker stores on a cache miss fed by
`exAttempt`: fresh 200/ok, the single edge Cache-Control header, the
origin body. -/
def exStored : Response :=
  { ok := true, status := 200,
    headers := [("Cache-Control", "public, max-age=" ++ toString exCfg.EDGE_CACHE_TTL)],
    body := exOkBody }

/-- What the legacy worker stores when the origin answered with the 500
response of `exFailAttempt`: the failed body behind a rebuilt 200. -/
def exStoredFail : Response :=
  { ok := true, status := 200,
    headers := [("Cache-Control", "public, max-age=" ++ toString exCfg.EDGE_CACHE_TTL)],
    body := exFailBody }

/-! ## Helper lemmas -/

theorem sha256_empty_string_digest :
    sha256 (some "") = "e3b0c44298fc1c149afbf4c8996fb92427ae41e4649b934ca495991b7852b855" := by
  decide

theorem sha256_abc_digest :
    sha256 (some "abc") = "ba7816bf8f01cfea414140de5dae2223b00361a396177a9cb410ff61f20015ad" := by
  decide

theorem headersGet_set_same (hs : List (String × String)) (nm v : String) :
    headersGet (headersSet hs nm v) nm = some v := by
  induction hs with
  | nil => simp [headersGet, headersSet]
  | cons kv tl ih =>
      by_cases h : kv.1 = nm
      · simpa [headersSet, headersGet, h] using ih
      · simpa [headersSet, headersGet, List.find?, h] using ih

theorem headersGet_set_other (hs : List (String × String)) (nm v nm2 : String)
    (h : nm2 ≠ nm) : headersGet (headersSet hs nm v) nm2 = headersGet hs nm2 := by
  have h2 : nm ≠ nm2 := fun hh => h hh.symm
  have hb0 : (nm == nm2) = false := by simp [h2]
  induction hs with
  | nil => simp [headersGet, headersSet, List.find?, hb0]
  | cons kv tl ih =>
      by_cases hk : kv.1 = nm
      · have hk2 : kv.1 ≠ nm2 := by rw [hk]; exact h2
        have hb : (kv.1 == nm2) = false := by simp [hk2]
        have e1 : headersSet (kv :: tl) nm v = headersSet tl nm v := by
          simp [headersSet, List.filter_cons, hk]
        have e2 : headersGet (kv :: tl) nm2 = headersGet tl nm2 := by
          simp [headersGet, List.find?, hb]
        rw [e1, e2]; exact ih
      · have e1 : headersSet (kv :: tl) nm v = kv :: headersSet tl nm v := by
          simp [headersSet, List.filter_cons, hk]
        by_cases hk2 : kv.1 = nm2
        · have hb : (kv.1 == nm2) = true := by simp [hk2]
          rw [e1]
          simp [headersGet, List.find?, hb]
        · have hb : (kv.1 == nm2) = false := by simp [hk2]
          have e2 : headersGet (kv :: tl) nm2 = headersGet tl nm2 := by
            simp [headersGet, List.find?, hb]
          have e3 : headersGet (kv :: headersSet tl nm v) nm2 = headersGet (headersSet tl nm v) nm2 := by
            simp [headersGet, List.find?, hb]
          rw [e1, e3, e2]; exact ih

theorem lookupFieldJ_appendFields : ∀ (a b : JsFields) (k : String),
    lookupFieldJ (appendFields a b) k =
      (match lookupFieldJ a k with
       | some v => some v
       | none => lookupFieldJ b k)
  | .nil, b, k => by simp [appendFields, lookupFieldJ]
  | .cons k2 v2 tl, b, k => by
      by_cases h : k2 = k
      · simp [appendFields, lookupFieldJ, h]
      · simpa [appendFields, lookupFieldJ, h] using lookupFieldJ_appendFields tl b k

theorem lookupFieldJ_overrideFields : ∀ (a b : JsFields) (k : String),
    lookupFieldJ (overrideFields a b) k =
      (lookupFieldJ a k).map (fun v => (lookupFieldJ b k).getD v)
  | .nil, b, k => by simp [overrideFields, lookupFieldJ]
  | .cons k2 v2 tl, b, k => by
      by_cases h : k2 = k
      · subst h
        cases hb : lookupFieldJ b k2 <;> simp [overrideFields, lookupFieldJ, hb]
      · simpa [overrideFields, lookupFieldJ, h] using lookupFieldJ_overrideFields tl b k

theorem lookupFieldJ_restFields : ∀ (a b : JsFields) (k : String),
    lookupFieldJ (restFields a b) k =
      if (lookupFieldJ a k).isSome then none else lookupFieldJ b k
  | a, .nil, k => by cases h : lookupFieldJ a k <;> simp [restFields, lookupFieldJ, h]
  | a, .cons kb vb tl, k => by
      by_cases hk : kb = k
      · subst hk
        cases h : lookupFieldJ a kb <;>
          simp [restFields, lookupFieldJ, h, lookupFieldJ_restFields a tl kb]
      · cases h : lookupFieldJ a kb <;>
          simpa [restFields, lookupFieldJ, h, hk] using lookupFieldJ_restFields a tl k

theorem lookupFieldJ_spreadMerge (a b : JsFields) (k : String) :
    lookupFieldJ (spreadMerge a b) k =
      if (lookupFieldJ b k).isSome then lookupFieldJ b k else lookupFieldJ a k := by
  unfold spreadMerge
  rw [lookupFieldJ_appendFields, lookupFieldJ_overrideFields, lookupFieldJ_restFields]
  cases ha : lookupFieldJ a k <;> cases hb : lookupFieldJ b k <;> simp [ha, hb]

theorem roundFields_appendFields : ∀ (a b : JsFields),
    roundFields (appendFields a b) = appendFields (roundFields a) (roundFields b)
  | .nil, b => rfl
  | .cons k v tl, b => by
      cases v <;> simp [appendFields, roundFields, roundFields_appendFields tl b]

theorem lookupFieldJ_roundFields_override_single : ∀ (a : JsFields) (k : String) (w : JsVal),
    lookupFieldJ (roundFields (overrideFields a (JsFields.cons k w .nil))) k =
      if (lookupFieldJ a k).isSome then roundLookup w else none
  | .nil, k, w => by simp [overrideFields, roundFields, lookupFieldJ]
  | .cons k2 v2 tl, k, w => by
      by_cases h : k2 = k
      · subst h
        have ih := lookupFieldJ_roundFields_override_single tl k2 w
        cases w <;>
          simp [overrideFields, roundFields, lookupFieldJ, roundLookup, ih]
      · have ih := lookupFieldJ_roundFields_override_single tl k w
        have h2 : ¬k = k2 := fun hh => h hh.symm
        cases v2 <;>
          simp [overrideFields, roundFields, lookupFieldJ, h2, h, ih]

theorem restFields_single (a : JsFields) (k : String) (w : JsVal) :
    restFields a (JsFields.cons k w .nil) =
      if (lookupFieldJ a k).isSome then JsFields.nil else JsFields.cons k w JsFields.nil := by
  cases h : lookupFieldJ a k <;> simp [restFields, h]

theorem lookupFieldJ_roundFields_spread_single (a : JsFields) (k : String) (w : JsVal) :
    lookupFieldJ (roundFields (spreadMerge a (JsFields.cons k w .nil))) k = roundLookup w := by
  unfold spreadMerge
  rw [roundFields_appendFields, lookupFieldJ_appendFields,
    lookupFieldJ_roundFields_override_single, restFields_single]
  cases ha : lookupFieldJ a k <;> cases w <;>
    simp [roundFields, roundLookup, lookupFieldJ]

theorem tryProvider_none_request (cfg : Config) : ∀ attempts : List Attempt,
    tryProvider cfg attempts none = none
  | [] => rfl
  | _ :: rest => by simpa [tryProvider] using tryProvider_none_request cfg rest

theorem tryProvider_some_spec (cfg : Config) : ∀ (attempts : List Attempt) (req : RequestModel)
    (resp : Response) (recs : List (Nat × RequestModel)),
    tryProvider cfg attempts (some req) = some (resp, recs) →
    ∃ pre a post, attempts = pre ++ a :: post ∧
      (∀ b ∈ pre, attemptSucceeds cfg b = false) ∧
      attemptSucceeds cfg a = true ∧
      fetchWithTimeout a cfg.PROVIDER_TIMEOUT = Except.ok resp ∧
      recs = (pre ++ [a]).map (fun b => (pickIndex b.rand cfg.PROVIDERS.length, req))
  | [], req, resp, recs => by simp [tryProvider]
  | a :: rest, req, resp, recs => by
      intro h
      cases hf : fetchWithTimeout a cfg.PROVIDER_TIMEOUT with
      | ok r =>
          by_cases hok : r.ok
          · simp only [tryProvider, hf, hok, if_true] at h
            obtain ⟨h1, h2⟩ := Prod.mk.injEq .. ▸ (Option.some.inj h)
            refine ⟨[], a, rest, rfl, by simp, ?_, ?_, ?_⟩
            · simp [attemptSucceeds, hf, hok]
            · rw [hf, h1]
            · simp [← h2]
          · simp only [tryProvider, hf, hok, if_false] at h
            cases htl : tryProvider cfg rest (some req) with
            | none => rw [htl] at h; exact absurd h (by simp)
            | some pr =>
                obtain ⟨r2, rs⟩ := pr
                rw [htl] at h
                obtain ⟨h1, h2⟩ := Prod.mk.injEq .. ▸ (Option.some.inj h)
                obtain ⟨pre, a2, post, hsplit, hpre, ha2, hfw, hrecs⟩ :=
                  tryProvider_some_spec cfg rest req r2 rs htl
                refine ⟨a :: pre, a2, post, by rw [hsplit]; simp, ?_, ha2, by rw [h1] at hfw; exact hfw, ?_⟩
                · intro b hb
                  rcases List.mem_cons.mp hb with hb | hb
                  · subst hb; simp [attemptSucceeds, hf, hok]
                  · exact hpre b hb
                · rw [← h2, hrecs]
                  simp
      | error e =>
          simp only [tryProvider, hf] at h
          cases htl : tryProvider cfg rest (some req) with
          | none => rw [htl] at h; exact absurd h (by simp)
          | some pr =>
              obtain ⟨r2, rs⟩ := pr
              rw [htl] at h
              obtain ⟨h1, h2⟩ := Prod.mk.injEq .. ▸ (Option.some.inj h)
              obtain ⟨pre, a2, post, hsplit, hpre, ha2, hfw, hrecs⟩ :=
                tryProvider_some_spec cfg rest req r2 rs htl
              refine ⟨a :: pre, a2, post, by rw [hsplit]; simp, ?_, ha2, by rw [h1] at hfw; exact hfw, ?_⟩
              · intro b hb
                rcases List.mem_cons.mp hb with hb | hb
                · subst hb; simp [attemptSucceeds, hf]
                · exact hpre b hb
              · rw [← h2, hrecs]
                simp

theorem pickIndex_uniform (r : Rat) (n : Nat) (h0 : 0 ≤ r) (h1 : r < 1) (hn : 0 < n) :
    pickIndex r n < n ∧
    ∀ i : Nat, (pickIndex r n = i ↔
      (i : Rat) / (n : Rat) ≤ r ∧ r < ((i : Rat) + 1) / (n : Rat)) := by
  have hnq : (0 : Rat) < (n : Rat) := by exact_mod_cast hn
  have hr0 : (0 : Rat) ≤ r * (n : Rat) := mul_nonneg h0 (le_of_lt hnq)
  have hfl0 : 0 ≤ Int.floor (r * (n : Rat)) := Int.floor_nonneg.mpr hr0
  have hlt : r * (n : Rat) < (n : Rat) := by
    calc r * (n : Rat) < 1 * (n : Rat) := mul_lt_mul_of_pos_right h1 hnq
    _ = (n : Rat) := one_mul _
  have hfln : Int.floor (r * (n : Rat)) < (n : ℤ) := by
    apply Int.floor_lt.mpr
    push_cast
    exact hlt
  constructor
  · unfold pickIndex
    omega
  · intro i
    unfold pickIndex
    constructor
    · intro hi
      have hfe : Int.floor (r * (n : Rat)) = (i : ℤ) := by omega
      obtain ⟨hle, hlt2⟩ := Int.floor_eq_iff.mp hfe
      constructor
      · rw [div_le_iff₀ hnq]
        exact_mod_cast hle
      · rw [lt_div_iff₀ hnq]
        push_cast at hlt2 ⊢
        linarith
    · rintro ⟨hle, hlt2⟩
      have h3 : (i : Rat) ≤ r * (n : Rat) := (div_le_iff₀ hnq).mp hle
      have h4 : r * (n : Rat) < (i : Rat) + 1 := by
        have := (lt_div_iff₀ hnq).mp hlt2
        linarith
      have hfe : Int.floor (r * (n : Rat)) = (i : ℤ) := by
        apply Int.floor_eq_iff.mpr
        constructor
        · exact_mod_cast h3
        · push_cast
          exact h4
      omega

theorem toBytesBE_lt (w : Nat) : ∀ b ∈ toBytesBE w, b < 256 := by
  intro b hb
  simp [toBytesBE] at hb
  rcases hb with rfl | rfl | rfl | rfl <;> omega

theorem sha256Bytes_length (m : List Nat) : (sha256Bytes m).length = 32 := by
  simp [sha256Bytes, toBytesBE]

theorem sha256Bytes_lt (m : List Nat) : ∀ b ∈ sha256Bytes m, b < 256 := by
  intro b hb
  simp only [sha256Bytes, List.mem_append] at hb
  rcases hb with ((((((hb | hb) | hb) | hb) | hb) | hb) | hb) | hb <;>
    exact toBytesBE_lt _ _ hb

theorem hexByte_eq_digits : ∀ b < 256,
    hexByte b = String.mk [Nat.digitChar (b / 16), Nat.digitChar (b % 16)] := by
  decide

theorem digitChar_mem_hexdigits : ∀ d < 16,
    Nat.digitChar d ∈ ("0123456789abcdef").data := by
  decide

theorem stringJoin_data (l : List String) :
    (String.join l).data = (l.map String.data).flatten := by
  have key : ∀ (l2 : List String) (init : String),
      (l2.foldl (fun a b => a ++ b) init).data = init.data ++ (l2.map String.data).flatten := by
    intro l2
    induction l2 with
    | nil => intro init; simp
    | cons s tl ih =>
        intro init
        simp [List.foldl, ih, String.data_append]
  simpa [String.join] using key l ""

theorem sum_hexpair_lengths (l : List Nat) :
    ((l.map (fun b => [Nat.digitChar (b / 16), Nat.digitChar (b % 16)])).map List.length).sum
      = 2 * l.length := by
  induction l with
  | nil => simp
  | cons b tl ih =>
      have h2 : ([Nat.digitChar (b / 16), Nat.digitChar (b % 16)]).length = 2 := rfl
      simp only [List.map_cons, List.sum_cons, List.length_cons, h2, ih]
      omega

/-! ## Claim theorems -/

/-- C1: whenever the failover loop tryProvider returns a response, that
response is ok and is the outcome of the first attempt in the trace that
settled strictly before the PROVIDER_TIMEOUT race with an ok status; every
earlier attempt failed (timeout, network rejection, or non-ok status) and
was logged and retried; each round passed the clone of the original
request to fetch and drew a fresh provider index; and the index function
Math.floor(Math.random() * n) maps a random draw in [0, 1) to each of the
n providers exactly on an interval of width 1/n (a uniform choice from
the pool). -/
theorem tryProvider_failover_spec (cfg : Config) (attempts : List Attempt)
    (req : RequestModel) (resp : Response) (recs : List (Nat × RequestModel))
    (h : tryProvider cfg attempts (some req) = some (resp, recs)) :
    resp.ok = true ∧
    (∃ pre a post, attempts = pre ++ a :: post ∧
      (∀ b ∈ pre, attemptSucceeds cfg b = false) ∧
      a.fetchTime < cfg.PROVIDER_TIMEOUT ∧
      a.result = Except.ok resp ∧
      recs = (pre ++ [a]).map (fun b => (pickIndex b.rand cfg.PROVIDERS.length, req))) ∧
    (∀ p ∈ recs, p.2 = req) ∧
    (∀ r0 : Rat, 0 ≤ r0 → r0 < 1 → 0 < cfg.PROVIDERS.length →
      pickIndex r0 cfg.PROVIDERS.length < cfg.PROVIDERS.length ∧
      ∀ i : Nat, (pickIndex r0 cfg.PROVIDERS.length = i ↔
        (i : Rat) / (cfg.PROVIDERS.length : Rat) ≤ r0 ∧
        r0 < ((i : Rat) + 1) / (cfg.PROVIDERS.length : Rat))) := by
  obtain ⟨pre, a, post, hsplit, hpre, hsucc, hfw, hrecs⟩ :=
    tryProvider_some_spec cfg attempts req resp recs h
  have hok : resp.ok = true := by
    unfold attemptSucceeds at hsucc
    rw [hfw] at hsucc
    exact hsucc
  have htime : a.fetchTime < cfg.PROVIDER_TIMEOUT := by
    by_contra hnt
    unfold fetchWithTimeout at hfw
    rw [if_neg hnt] at hfw
    exact absurd hfw (by simp)
  have hres : a.result = Except.ok resp := by
    unfold fetchWithTimeout at hfw
    rw [if_pos htime] at hfw
    exact hfw
  refine ⟨hok, ⟨pre, a, post, hsplit, hpre, htime, hres, hrecs⟩, ?_, ?_⟩
  · intro p hp
    rw [hrecs] at hp
    obtain ⟨b, _, hb⟩ := List.mem_map.mp hp
    rw [← hb]
  · intro r0 h0 h1 hn
    exact pickIndex_uniform r0 cfg.PROVIDERS.length h0 h1 hn

/-- Witness for C1: a one-attempt trace whose fetch settles immediately
with an ok response. -/
theorem tryProvider_failover_spec_witness :
    tryProvider exCfg [exAttempt] (some exReqGet) =
      some (exOkResponse, [(pickIndex exAttempt.rand exCfg.PROVIDERS.length, exReqGet)]) ∧
    exOkResponse.ok = true := by
  refine ⟨rfl, ?_⟩
  exact (tryProvider_failover_spec exCfg [exAttempt] exReqGet exOkResponse _ rfl).1

/-- C2: the cache key handlePost derives for a POST body with params `p`
is a GET request carrying the original headers whose path is "/posts",
then the original path, then the hex SHA-256 digest of JSON.stringify(p);
the digest is the 32 digest bytes rendered in order as two lowercase hex
characters each, zero-padded per byte (64 lowercase hex characters); and
the derivation is deterministic: any request with the same path, the same
headers and a body with the same params yields the identical key. -/
theorem postCacheKey_spec (request : RequestModel) (body p : JsVal) (s : String)
    (hp : jsGet body "params" = p) (hs : stringifyCore p = some s) :
    (postCacheKey request body).method = "GET" ∧
    (postCacheKey request body).headers = request.headers ∧
    (postCacheKey request body).path = "/posts" ++ request.path ++ sha256 (some s) ∧
    (sha256 (some s)).data = ((sha256Bytes (utf8Encode s)).map
      (fun b => [Nat.digitChar (b / 16), Nat.digitChar (b % 16)])).flatten ∧
    (sha256 (some s)).data.length = 64 ∧
    (∀ c ∈ (sha256 (some s)).data, c ∈ ("0123456789abcdef").data) ∧
    (∀ request2 body2, jsGet body2 "params" = p → request2.path = request.path →
      request2.headers = request.headers →
      postCacheKey request2 body2 = postCacheKey request body) := by
  have hdata : (sha256 (some s)).data = ((sha256Bytes (utf8Encode s)).map
      (fun b => [Nat.digitChar (b / 16), Nat.digitChar (b % 16)])).flatten := by
    show (String.join ((sha256Bytes (textEncoderEncode (some s))).map hexByte)).data = _
    rw [stringJoin_data, List.map_map]
    congr 1
    refine List.map_congr_left ?_
    intro b hb
    have hblt : b < 256 := sha256Bytes_lt _ b hb
    show (hexByte b).data = _
    rw [hexByte_eq_digits b hblt]
  have hkey : stringifyCore (jsGet body "params") = some s := by rw [hp, hs]
  refine ⟨rfl, rfl, ?_, hdata, ?_, ?_, ?_⟩
  · show ("/posts" ++ request.path ++ sha256 (stringifyCore (jsGet body "params"))) = _
    rw [hkey]
  · rw [hdata, List.length_flatten, sum_hexpair_lengths, sha256Bytes_length]
  · intro c hc
    rw [hdata] at hc
    obtain ⟨l, hl, hcl⟩ := List.mem_flatten.mp hc
    obtain ⟨b, hb, hbl⟩ := List.mem_map.mp hl
    have hblt : b < 256 := sha256Bytes_lt _ b hb
    rw [← hbl] at hcl
    simp only [List.mem_cons, List.mem_singleton] at hcl
    rcases hcl with rfl | rfl | hfalse
    · exact digitChar_mem_hexdigits (b / 16) (by omega)
    · exact digitChar_mem_hexdigits (b % 16) (by omega)
    · exact absurd hfalse (by simp)
  · intro request2 body2 hp2 hpath hhead
    simp [postCacheKey, hp, hp2, hpath, hhead]

/-- Witness for C2: the body with method eth_call and empty params
serializes its params to the two-character string of brackets. -/
theorem postCacheKey_spec_witness :
    jsGet exBodyCall "params" = JsVal.arr .nil ∧
    stringifyCore (JsVal.arr .nil) = some "[]" ∧
    (postCacheKey exReqCall exBodyCall).method = "GET" := by
  refine ⟨rfl, rfl, ?_⟩
  exact (postCacheKey_spec exReqCall exBodyCall (JsVal.arr .nil) "[]" rfl rfl).1

/-- C4: every formatted response carries Cache-Control max-age equal to
the browser TTL and the three permissive CORS headers, for every input
response (whether it came from the edge cache or from a fresh origin
fetch) and every extra-fields argument, whatever headers the input
carried. -/
theorem formatResponse_headers_spec (cfg : Config) (response : Response) (body : Option JsFields) :
    headersGet (formatResponse cfg response body).headers "Cache-Control" =
      some ("max-age=" ++ toString cfg.BROWSER_CACHE_TTL) ∧
    headersGet (formatResponse cfg response body).headers "Access-Control-Allow-Origin" = some "*" ∧
    headersGet (formatResponse cfg response body).headers "Access-Control-Allow-Method" = some "*" ∧
    headersGet (formatResponse cfg response body).headers "Access-Control-Allow-Headers" =
      some "*" := by
  have key : ∀ hs : List (String × String),
      headersGet (headersSet (headersSet (headersSet (headersSet hs
          "Cache-Control" ("max-age=" ++ toString cfg.BROWSER_CACHE_TTL))
          "Access-Control-Allow-Method" "*")
          "Access-Control-Allow-Origin" "*")
          "Access-Control-Allow-Headers" "*") "Cache-Control" =
        some ("max-age=" ++ toString cfg.BROWSER_CACHE_TTL) ∧
      headersGet (headersSet (headersSet (headersSet (headersSet hs
          "Cache-Control" ("max-age=" ++ toString cfg.BROWSER_CACHE_TTL))
          "Access-Control-Allow-Method" "*")
          "Access-Control-Allow-Origin" "*")
          "Access-Control-Allow-Headers" "*") "Access-Control-Allow-Origin" = some "*" ∧
      headersGet (headersSet (headersSet (headersSet (headersSet hs
          "Cache-Control" ("max-age=" ++ toString cfg.BROWSER_CACHE_TTL))
          "Access-Control-Allow-Method" "*")
          "Access-Control-Allow-Origin" "*")
          "Access-Control-Allow-Headers" "*") "Access-Control-Allow-Method" = some "*" ∧
      headersGet (headersSet (headersSet (headersSet (headersSet hs
          "Cache-Control" ("max-age=" ++ toString cfg.BROWSER_CACHE_TTL))
          "Access-Control-Allow-Method" "*")
          "Access-Control-Allow-Origin" "*")
          "Access-Control-Allow-Headers" "*") "Access-Control-Allow-Headers" = some "*" := by
    intro hs
    refine ⟨?_, ?_, ?_, ?_⟩
    · rw [headersGet_set_other _ _ _ _ (by decide), headersGet_set_other _ _ _ _ (by decide),
        headersGet_set_other _ _ _ _ (by decide), headersGet_set_same]
    · rw [headersGet_set_other _ _ _ _ (by decide), headersGet_set_same]
    · rw [headersGet_set_other _ _ _ _ (by decide), headersGet_set_other _ _ _ _ (by decide),
        headersGet_set_same]
    · rw [headersGet_set_same]
  cases body with
  | none => exact key response.headers
  | some extra => exact key response.headers

/-- C7 (code bug): on every GET request that misses the edge cache, the
handler produces no response at all, however long the attempt trace is:
handleGet passes the Request itself as the event argument of
getOriginResponse, so tryProvider receives event.request, the JavaScript
value undefined, and request.clone() throws a TypeError inside the try
block on every round; the catch swallows it and retries forever, and no
fetch, no store and no formatting ever happen. -/
theorem handleGet_miss_no_response (cfg : Config) (attempts : List Attempt)
    (request : RequestModel) (cache : Cache)
    (h : cacheLookup cache request.path = none) :
    handleGet cfg attempts request cache = none := by
  simp [handleGet, h, getOriginResponse, tryProvider_none_request]

/-- Witness for C7: a GET for a path absent from the empty cache. -/
theorem handleGet_miss_no_response_witness :
    cacheLookup [] exReqGet.path = none ∧
    handleGet exCfg [exAttempt] exReqGet [] = none :=
  ⟨rfl, handleGet_miss_no_response exCfg [exAttempt] exReqGet [] rfl⟩

/-- C8 (code bug): the derived cache key depends only on the params field
(and the URL path and headers): two POST bodies with identical params but
different method fields map to the identical cache key, because the
source hashes only JSON.stringify(body.params) and never uses the
`cacheable` object it builds from method and jsonrpc. -/
theorem postCacheKey_ignores_method_and_jsonrpc :
    jsGet exBodyCall "method" = JsVal.str "eth_call" ∧
    jsGet exBodyBalance "method" = JsVal.str "eth_getBalance" ∧
    jsGet exBodyCall "params" = jsGet exBodyBalance "params" ∧
    postCacheKey exReqCall exBodyCall = postCacheKey exReqCall exBodyBalance := by
  have hparams : jsGet exBodyCall "params" = jsGet exBodyBalance "params" := rfl
  refine ⟨rfl, rfl, hparams, ?_⟩
  simp only [postCacheKey, hparams]

theorem getOriginResponse_no_key (cfg : Config) (attempts : List Attempt) (ev : FetchEventArg)
    (cache : Cache) (r : Response) (c2 : Cache)
    (h : getOriginResponse cfg attempts ev none cache = some (.ok (r, c2))) :
    c2 = cache ∧ ∃ recs, tryProvider cfg attempts ev.request = some (r, recs) := by
  unfold getOriginResponse at h
  cases ht : tryProvider cfg attempts ev.request with
  | none => rw [ht] at h; exact absurd h (by simp)
  | some pr =>
      obtain ⟨r0, recs⟩ := pr
      rw [ht] at h
      simp only [Option.some.injEq, Except.ok.injEq, Prod.mk.injEq] at h
      obtain ⟨h1, h2⟩ := h
      exact ⟨h2.symm, recs, by rw [h1]⟩

theorem getOriginResponse_with_key (cfg : Config) (attempts : List Attempt) (ev : FetchEventArg)
    (key : String) (cache : Cache) (r : Response) (c2 : Cache)
    (hw : ev.hasWaitUntil = true)
    (h : getOriginResponse cfg attempts ev (some key) cache = some (.ok (r, c2))) :
    r.ok = true ∧ r.status = 200 ∧
    r.headers = [("Cache-Control", "public, max-age=" ++ toString cfg.EDGE_CACHE_TTL)] ∧
    c2 = cacheStore cache key r ∧
    ∃ resp0 recs, tryProvider cfg attempts ev.request = some (resp0, recs) ∧
      r.body = resp0.body := by
  unfold getOriginResponse at h
  cases ht : tryProvider cfg attempts ev.request with
  | none => rw [ht] at h; exact absurd h (by simp)
  | some pr =>
      obtain ⟨r0, recs⟩ := pr
      rw [ht, hw] at h
      simp only [if_true, Option.some.injEq, Except.ok.injEq, Prod.mk.injEq] at h
      obtain ⟨h1, h2⟩ := h
      subst h1
      subst h2
      exact ⟨rfl, rfl, rfl, rfl, r0, recs, rfl, rfl⟩

theorem handlePost_ok_spec (cfg : Config) (attempts : List Attempt) (request : RequestModel)
    (cache : Cache) (body : JsVal)
    (hb : request.bodyJson = some body)
    (resp : Response) (cache2 : Cache) (ops : List CacheOp)
    (h : handlePost cfg attempts request cache = some (.ok (resp, cache2, ops))) :
    ∃ origin : Response,
      resp = formatResponse cfg origin (some (JsFields.cons "id" (jsGet body "id") .nil)) ∧
      ((jsEqStr (jsGet body "method") "eth_blockNumber"
          || jsEqStr (jsGet body "method") "eth_estimateGas") = true →
        ops = [] ∧ cache2 = cache) ∧
      ((jsEqStr (jsGet body "method") "eth_blockNumber"
          || jsEqStr (jsGet body "method") "eth_estimateGas") = false →
        (ops = [CacheOp.lookup (postCacheKey request body).path] ∧ cache2 = cache ∧
          cacheLookup cache (postCacheKey request body).path = some origin) ∨
        (ops = [CacheOp.lookup (postCacheKey request body).path,
                CacheOp.store (postCacheKey request body).path] ∧
          cacheLookup cache (postCacheKey request body).path = none ∧
          origin.ok = true ∧ origin.status = 200 ∧
          origin.headers = [("Cache-Control", "public, max-age=" ++ toString cfg.EDGE_CACHE_TTL)] ∧
          cache2 = cacheStore cache (postCacheKey request body).path origin)) := by
  obtain ⟨rm, rp, rh, rb⟩ := request
  have hb2 : rb = some body := hb
  subst hb2
  simp only [handlePost] at h
  by_cases hnull : jsIsNullish body = true
  · rw [if_pos hnull] at h
    exact absurd h (by simp)
  · rw [if_neg hnull] at h
    by_cases hbp : (jsEqStr (jsGet body "method") "eth_blockNumber"
        || jsEqStr (jsGet body "method") "eth_estimateGas") = true
    · rw [hbp, if_pos rfl] at h
      cases hg : getOriginResponse cfg attempts
          ⟨some ⟨rm, rp, rh, some body⟩, true⟩ none cache with
      | none => rw [hg] at h; exact absurd h (by simp)
      | some ex =>
          cases ex with
          | error e => rw [hg] at h; exact absurd h (by simp)
          | ok pr =>
              obtain ⟨r0, c0⟩ := pr
              rw [hg] at h
              simp only [Option.some.injEq, Except.ok.injEq, Prod.mk.injEq] at h
              obtain ⟨h1, h2, h3⟩ := h
              obtain ⟨hc0, -⟩ := getOriginResponse_no_key cfg attempts _ cache r0 c0 hg
              refine ⟨r0, h1.symm, fun _ => ⟨h3.symm, ?_⟩, fun hcontra => absurd hbp (by simp [hcontra])⟩
              rw [← h2, hc0]
    · have hbpf : (jsEqStr (jsGet body "method") "eth_blockNumber"
          || jsEqStr (jsGet body "method") "eth_estimateGas") = false := by
        revert hbp
        cases (jsEqStr (jsGet body "method") "eth_blockNumber"
          || jsEqStr (jsGet body "method") "eth_estimateGas") <;> simp
      rw [hbpf, if_neg (by simp)] at h
      cases hl : cacheLookup cache (postCacheKey ⟨rm, rp, rh, some body⟩ body).path with
      | some rc =>
          rw [hl] at h
          simp only [Option.some.injEq, Except.ok.injEq, Prod.mk.injEq] at h
          obtain ⟨h1, h2, h3⟩ := h
          refine ⟨rc, h1.symm, fun hcontra => absurd hcontra (by simp [hbpf]), ?_⟩
          intro _
          exact Or.inl ⟨h3.symm, h2.symm, rfl⟩
      | none =>
          rw [hl] at h
          cases hg : getOriginResponse cfg attempts ⟨some ⟨rm, rp, rh, some body⟩, true⟩
              (some (postCacheKey ⟨rm, rp, rh, some body⟩ body).path) cache with
          | none => rw [hg] at h; exact absurd h (by simp)
          | some ex =>
              cases ex with
              | error e => rw [hg] at h; exact absurd h (by simp)
              | ok pr =>
                  obtain ⟨r0, c0⟩ := pr
                  rw [hg] at h
                  simp only [Option.some.injEq, Except.ok.injEq, Prod.mk.injEq] at h
                  obtain ⟨h1, h2, h3⟩ := h
                  obtain ⟨hok, hst, hhd, hc0, -⟩ :=
                    getOriginResponse_with_key cfg attempts _ _ cache r0 c0 rfl hg
                  refine ⟨r0, h1.symm, fun hcontra => absurd hcontra (by simp [hbpf]), ?_⟩
                  intro _
                  exact Or.inr ⟨h3.symm, rfl, hok, hst, hhd, by rw [← h2, hc0]⟩

/-- C3: a POST whose method field is eth_blockNumber or eth_estimateGas
is handled with no cache lookup and no cache store and leaves the edge
cache unchanged; a POST with any other method performs a lookup under the
derived key and, on a miss, a store under that key (on a hit only the
lookup happens and the cache is unchanged). -/
theorem handlePost_bypass_frame (cfg : Config) (attempts : List Attempt)
    (request : RequestModel) (cache : Cache) (body : JsVal)
    (hb : request.bodyJson = some body) :
    ((jsEqStr (jsGet body "method") "eth_blockNumber"
        || jsEqStr (jsGet body "method") "eth_estimateGas") = true →
      ∀ resp cache2 ops,
        handlePost cfg attempts request cache = some (.ok (resp, cache2, ops)) →
        ops = [] ∧ cache2 = cache) ∧
    ((jsEqStr (jsGet body "method") "eth_blockNumber"
        || jsEqStr (jsGet body "method") "eth_estimateGas") = false →
      ∀ resp cache2 ops,
        handlePost cfg attempts request cache = some (.ok (resp, cache2, ops)) →
        CacheOp.lookup (postCacheKey request body).path ∈ ops ∧
        (cacheLookup cache (postCacheKey request body).path = none →
          CacheOp.store (postCacheKey request body).path ∈ ops) ∧
        (∀ rc, cacheLookup cache (postCacheKey request body).path = some rc →
          ops = [CacheOp.lookup (postCacheKey request body).path] ∧ cache2 = cache)) := by
  constructor
  · intro hbp resp cache2 ops h
    obtain ⟨origin, -, hbyp, -⟩ :=
      handlePost_ok_spec cfg attempts request cache body hb resp cache2 ops h
    exact hbyp hbp
  · intro hbpf resp cache2 ops h
    obtain ⟨origin, -, -, hnb⟩ :=
      handlePost_ok_spec cfg attempts request cache body hb resp cache2 ops h
    rcases hnb hbpf with ⟨hops, hc, hlk⟩ | ⟨hops, hmiss, -, -, -, -⟩
    · refine ⟨by simp [hops], fun hm => absurd hlk (by rw [hm]; simp), fun rc _ => ⟨hops, hc⟩⟩
    · refine ⟨by simp [hops], fun _ => by simp [hops], ?_⟩
      intro rc hrc
      rw [hmiss] at hrc
      exact absurd hrc (by simp)

/-- Witness for C3 at the bypass branch: a POST body with method
eth_blockNumber against the empty cache performs no cache operation. -/
theorem handlePost_bypass_frame_witness :
    exReqBypass.bodyJson = some exBodyBlockNumber ∧
    (([] : List CacheOp) = [] ∧ ([] : Cache) = []) := by
  refine ⟨rfl, ?_⟩
  exact (handlePost_bypass_frame exCfg [exAttempt] exReqBypass [] exBodyBlockNumber rfl).1
    rfl (formatResponse exCfg exOkResponse (some (.cons "id" (jsGet exBodyBlockNumber "id") .nil)))
    [] [] rfl

/-- C5: for every POST, the formatted response body is the origin or
cached JSON body shallow-merged with the extra object carrying the
request id, the extra field winning on collision and the merge being
re-serialized; in particular the id field of the response body equals the
request body id whenever the latter is a string, whatever id the cached
or origin body carried. -/
theorem handlePost_id_overrides (cfg : Config) (attempts : List Attempt)
    (request : RequestModel) (cache : Cache) (body idv : JsVal)
    (hb : request.bodyJson = some body)
    (hid : jsGet body "id" = idv)
    (resp : Response) (cache2 : Cache) (ops : List CacheOp)
    (h : handlePost cfg attempts request cache = some (.ok (resp, cache2, ops))) :
    (∃ ob : JsVal, resp.body =
      JsVal.obj (roundFields (spreadMerge (fieldsOf ob) (JsFields.cons "id" idv .nil)))) ∧
    lookupFieldJ (fieldsOf resp.body) "id" = roundLookup idv ∧
    (∀ s, idv = JsVal.str s →
      lookupFieldJ (fieldsOf resp.body) "id" = some (JsVal.str s)) := by
  obtain ⟨origin, hresp, -, -⟩ :=
    handlePost_ok_spec cfg attempts request cache body hb resp cache2 ops h
  rw [hid] at hresp
  have hbody : resp.body =
      JsVal.obj (roundFields (spreadMerge (fieldsOf origin.body) (JsFields.cons "id" idv .nil))) := by
    rw [hresp]; rfl
  have hlook : lookupFieldJ (fieldsOf resp.body) "id" = roundLookup idv := by
    rw [hbody]
    exact lookupFieldJ_roundFields_spread_single (fieldsOf origin.body) "id" idv
  refine ⟨⟨origin.body, hbody⟩, hlook, ?_⟩
  intro s hs
  rw [hlook, hs]
  rfl

/-- Witness for C5: a bypass POST whose body has id "abc", served by an
origin response whose own body carries a different id. -/
theorem handlePost_id_overrides_witness :
    exReqBypassId.bodyJson = some exBodyBypassId ∧
    jsGet exBodyBypassId "id" = JsVal.str "abc" ∧
    lookupFieldJ (fieldsOf (formatResponse exCfg exOkResponse
        (some (.cons "id" (jsGet exBodyBypassId "id") .nil))).body) "id" =
      some (JsVal.str "abc") := by
  refine ⟨rfl, rfl, ?_⟩
  exact (handlePost_id_overrides exCfg [exAttempt] exReqBypassId [] exBodyBypassId
    (JsVal.str "abc") rfl rfl
    (formatResponse exCfg exOkResponse (some (.cons "id" (jsGet exBodyBypassId "id") .nil)))
    [] [] rfl).2.2 "abc" rfl

/-- C10: for every POST whose JSON body has no id field, the formatted
response body contains no id field, even when the origin or cached body
did contain one: the spread puts an undefined id on top of the parsed
body and serialization drops it. -/
theorem handlePost_drops_missing_id (cfg : Config) (attempts : List Attempt)
    (request : RequestModel) (cache : Cache) (body : JsVal)
    (hb : request.bodyJson = some body)
    (hid : jsGet body "id" = JsVal.undefined)
    (resp : Response) (cache2 : Cache) (ops : List CacheOp)
    (h : handlePost cfg attempts request cache = some (.ok (resp, cache2, ops))) :
    lookupFieldJ (fieldsOf resp.body) "id" = none := by
  obtain ⟨origin, hresp, -, -⟩ :=
    handlePost_ok_spec cfg attempts request cache body hb resp cache2 ops h
  rw [hid] at hresp
  have hbody : resp.body =
      JsVal.obj (roundFields (spreadMerge (fieldsOf origin.body)
        (JsFields.cons "id" JsVal.undefined .nil))) := by
    rw [hresp]; rfl
  rw [hbody]
  exact lookupFieldJ_roundFields_spread_single (fieldsOf origin.body) "id" JsVal.undefined

/-- Witness for C10: a POST body with no id field, served by an origin
response whose body carries id 99; the formatted body has no id. -/
theorem handlePost_drops_missing_id_witness :
    exReqBypass.bodyJson = some exBodyBlockNumber ∧
    jsGet exBodyBlockNumber "id" = JsVal.undefined ∧
    lookupFieldJ (fieldsOf exOkResponse.body) "id" = some (JsVal.num 99) ∧
    lookupFieldJ (fieldsOf (formatResponse exCfg exOkResponse
        (some (.cons "id" (jsGet exBodyBlockNumber "id") .nil))).body) "id" = none := by
  refine ⟨rfl, rfl, rfl, ?_⟩
  exact handlePost_drops_missing_id exCfg [exAttempt] exReqBypass [] exBodyBlockNumber rfl rfl
    (formatResponse exCfg exOkResponse (some (.cons "id" (jsGet exBodyBlockNumber "id") .nil)))
    [] [] rfl

/-- C6 (amended): in the current worker, every entry that a completed
handlePost run adds to the edge cache is a fresh ok/200 response carrying
exactly the edge Cache-Control header, stored under the derived key, and
only for a body whose method is not in the bypass set; pre-existing
entries are untouched.  (The legacy variant in src/index.js violates the
original claim: it stores every fetched response, ok or not — see the
counterexample.) -/
theorem handlePost_cache_write_invariant (cfg : Config) (attempts : List Attempt)
    (request : RequestModel) (cache : Cache) (body : JsVal)
    (hb : request.bodyJson = some body)
    (resp : Response) (cache2 : Cache) (ops : List CacheOp)
    (h : handlePost cfg attempts request cache = some (.ok (resp, cache2, ops)))
    (k : String) (e : Response)
    (hmem : (k, e) ∈ cache2) :
    (k, e) ∈ cache ∨
      (e.ok = true ∧ e.status = 200 ∧
        e.headers = [("Cache-Control", "public, max-age=" ++ toString cfg.EDGE_CACHE_TTL)] ∧
        (jsEqStr (jsGet body "method") "eth_blockNumber"
          || jsEqStr (jsGet body "method") "eth_estimateGas") = false ∧
        k = (postCacheKey request body).path) := by
  obtain ⟨origin, -, hbyp, hnb⟩ :=
    handlePost_ok_spec cfg attempts request cache body hb resp cache2 ops h
  by_cases hbp : (jsEqStr (jsGet body "method") "eth_blockNumber"
      || jsEqStr (jsGet body "method") "eth_estimateGas") = true
  · obtain ⟨-, hc⟩ := hbyp hbp
    rw [hc] at hmem
    exact Or.inl hmem
  · have hbpf : (jsEqStr (jsGet body "method") "eth_blockNumber"
        || jsEqStr (jsGet body "method") "eth_estimateGas") = false := by
      revert hbp
      cases (jsEqStr (jsGet body "method") "eth_blockNumber"
        || jsEqStr (jsGet body "method") "eth_estimateGas") <;> simp
    rcases hnb hbpf with ⟨-, hc, -⟩ | ⟨-, -, hok, hst, hhd, hc⟩
    · rw [hc] at hmem
      exact Or.inl hmem
    · rw [hc] at hmem
      rcases List.mem_cons.mp hmem with hpair | hmem2
      · obtain ⟨hk, he⟩ := Prod.mk.injEq .. ▸ hpair
        subst he
        exact Or.inr ⟨hok, hst, hhd, hbpf, hk⟩
      · exact Or.inl hmem2

/-- Witness for C6 at a cache-miss run that stores: the single new entry
is the fresh ok/200 response under the derived key. -/
theorem handlePost_cache_write_invariant_witness :
    exReqCall.bodyJson = some exBodyCall ∧
    (((postCacheKey exReqCall exBodyCall).path, exStored) ∈ ([] : Cache) ∨
      (exStored.ok = true ∧ exStored.status = 200 ∧
        exStored.headers =
          [("Cache-Control", "public, max-age=" ++ toString exCfg.EDGE_CACHE_TTL)] ∧
        (jsEqStr (jsGet exBodyCall "method") "eth_blockNumber"
          || jsEqStr (jsGet exBodyCall "method") "eth_estimateGas") = false ∧
        (postCacheKey exReqCall exBodyCall).path = (postCacheKey exReqCall exBodyCall).path)) := by
  refine ⟨rfl, ?_⟩
  exact handlePost_cache_write_invariant exCfg [exAttempt] exReqCall [] exBodyCall rfl
    (formatResponse exCfg exStored (some (.cons "id" (jsGet exBodyCall "id") .nil)))
    (cacheStore [] (postCacheKey exReqCall exBodyCall).path exStored)
    [CacheOp.lookup (postCacheKey exReqCall exBodyCall).path,
     CacheOp.store (postCacheKey exReqCall exBodyCall).path]
    rfl
    (postCacheKey exReqCall exBodyCall).path exStored
    (List.mem_cons_self _ _)

/-- Counterexample for C6 as originally stated: the legacy worker variant
(src/index.js) stores an entry built from an origin response whose ok
flag is false — its tryProvider accepts any fetch-resolved response and
its getOriginResponse stores unconditionally, so the edge cache is
populated from a failed origin response (rebuilt as a 200 carrying the
error body and the edge Cache-Control header). -/
theorem legacy_stores_failed_origin_response :
    Legacy.tryProvider exCfg [exFailAttempt] (some exReqCall) =
      some (exFailResponse,
        [(pickIndex exFailAttempt.rand exCfg.PROVIDERS.length, some exReqCall)]) ∧
    exFailResponse.ok = false ∧
    Legacy.getOriginResponse exCfg [exFailAttempt] ⟨some exReqCall, true⟩ "/postskey" [] =
      some (.ok (exStoredFail, [("/postskey", exStoredFail)])) ∧
    exStoredFail.body = exFailResponse.body :=
  ⟨rfl, rfl, rfl, rfl⟩

/-- C9 (amended): a POST whose body is not valid JSON makes
request.clone().json() reject and nothing catches the rejection: the
handler fails with the uncaught parse error and no recovery path exists;
a body that parses to JSON null (or to undefined) likewise fails
uncaught, with the TypeError thrown by destructuring it.  (A body that
parses to any other JSON value can lack every expected field without
failing — see the counterexample.) -/
theorem handlePost_invalid_json_uncaught (cfg : Config) (attempts : List Attempt)
    (request : RequestModel) (cache : Cache) :
    (request.bodyJson = none →
      handlePost cfg attempts request cache =
        some (.error "SyntaxError: unexpected token in JSON")) ∧
    (∀ body, request.bodyJson = some body → jsIsNullish body = true →
      handlePost cfg attempts request cache =
        some (.error "TypeError: cannot destructure the body")) := by
  constructor
  · intro h
    simp [handlePost, h]
  · intro body hb hnull
    obtain ⟨rm, rp, rh, rb⟩ := request
    have hb2 : rb = some body := hb
    subst hb2
    simp [handlePost, hnull]

/-- Witness for C9: a POST whose body fails to parse, and a POST whose
body is the JSON value null. -/
theorem handlePost_invalid_json_uncaught_witness :
    exReqBadJson.bodyJson = none ∧
    handlePost exCfg [exAttempt] exReqBadJson [] =
      some (.error "SyntaxError: unexpected token in JSON") ∧
    exReqNullBody.bodyJson = some JsVal.null ∧
    handlePost exCfg [exAttempt] exReqNullBody [] =
      some (.error "TypeError: cannot destructure the body") :=
  ⟨rfl, (handlePost_invalid_json_uncaught exCfg [exAttempt] exReqBadJson []).1 rfl,
   rfl, (handlePost_invalid_json_uncaught exCfg [exAttempt] exReqNullBody []).2 JsVal.null rfl rfl⟩

/-- Counterexample for C9 as originally stated: a POST body that is valid
JSON but lacks every expected field (the empty object) does not fail —
the missing fields flow through as undefined, JSON.stringify of the
missing params is undefined, the TextEncoder inside sha256 encodes the
empty string, and the handler completes with a stored response. -/
theorem handlePost_missing_fields_produces_response :
    exReqEmptyBody.bodyJson = some (JsVal.obj .nil) ∧
    handlePost exCfg [exAttempt] exReqEmptyBody [] =
      some (.ok (formatResponse exCfg exStored
          (some (.cons "id" (jsGet (JsVal.obj .nil) "id") .nil)),
        cacheStore [] (postCacheKey exReqEmptyBody (JsVal.obj .nil)).path exStored,
        [CacheOp.lookup (postCacheKey exReqEmptyBody (JsVal.obj .nil)).path,
         CacheOp.store (postCacheKey exReqEmptyBody (JsVal.obj .nil)).path])) :=
  ⟨rfl, rfl⟩
